import Mathlib

/-!
Shallow embedding of the "falling trail" overlay engine of gilescope/alacritty.

The engine exists in two duplicated evolutions in the source:
  * the inline background thread in `src/main.rs` (`run`, lines 297-513), and
  * `src/term/animation.rs` (`MatrixUndo`, `undo`, `start_animation_thread`).

Both share the same data model: a grid of cells, a snapshot of it
(`original_columns`), a set of per-column trails (`columns`, entries tagged
with a `real : bool` provenance flag), a monotonic `tick` counter and a
`last_change_detected` tick.  Machine integers are modelled as `Nat`; the
points where Rust's `usize` subtraction can panic on underflow are either
modelled explicitly with an `Option` (see `rustUsizeSub`) or placed under
hypotheses that keep the `Nat` truncated subtraction in agreement with the
Rust semantics.  Randomness (`rand::thread_rng`) is modelled as an injected
stream of naturals (`Rng`), with `gen_range lo hi` drawing a value in
`[lo, hi)` and `gen_bool 0.2` drawn as a 1-in-5 event on the stream.
-/

/-- An RGB colour (`alacritty::Rgb`). -/
structure Rgb where
  r : Nat
  g : Nat
  b : Nat
deriving DecidableEq, Repr

/-- A cell colour (`alacritty::ansi::Color`): either a direct RGB spec (the
only constructor the engine builds) or any other colour the grid already
holds, abstracted by an index. -/
inductive Color where
  | spec : Rgb → Color
  | other : Nat → Color
deriving DecidableEq, Repr

/-- A grid cell (`alacritty::term::Cell`): character, foreground, background
and style flags (a bitset; `Flags::BOLD` is `boldFlag`). -/
structure Cell where
  c : Char
  fg : Color
  bg : Color
  flags : Nat
deriving DecidableEq, Repr

/-- `Cell::new(c, fg, bg)` constructs a cell with empty flags. -/
def Cell.new (ch : Char) (fg bg : Color) : Cell :=
  { c := ch, fg := fg, bg := bg, flags := 0 }

/-- The `Flags::BOLD` bit. -/
def boldFlag : Nat := 1

/-- Placeholder cell used to totalise out-of-range list reads that the Rust
code never performs (it would panic instead). -/
def cellDefault : Cell := Cell.new ' ' (Color.other 0) (Color.other 0)

instance : Inhabited Cell := ⟨cellDefault⟩

/-- The grid (`Grid<Cell>`): row/column extents plus the cell at each
(row, column) coordinate.  `cell r c` corresponds to
`grid[Line(r)][Column(c)]`. -/
structure Grid where
  height : Nat
  width : Nat
  cell : Nat → Nat → Cell

/-- A trail entry: the cell together with its provenance flag
(`(Cell, bool)` in the source, `true` = Real, `false` = Synthetic). -/
abbrev Entry := Cell × Bool

/-- The per-column trail set (`columns : Vec<Vec<(Cell, bool)>>`). -/
abbrev Columns := List (List Entry)

/-- A snapshot (`Vec<Vec<Cell>>`, column-major). -/
abbrev Snapshot := List (List Cell)

/-- `screen_shot` (both evolutions): a full column-major copy of the grid. -/
def screen_shot (g : Grid) : Snapshot :=
  (List.range g.width).map (fun ci => (List.range g.height).map (fun ri => g.cell ri ci))

/-- Number of Real-provenance entries of a trail column
(`col.iter().filter(|(_ch, real)| *real).count()`). -/
def realCount (col : List Entry) : Nat :=
  (col.filter (fun e => e.2)).length

/-- Number of Synthetic-provenance entries of a trail column. -/
def synthCount (col : List Entry) : Nat :=
  (col.filter (fun e => !e.2)).length

/-- The cells of the Real-provenance entries of a trail column, in order. -/
def realCells (col : List Entry) : List Cell :=
  (col.filter (fun e => e.2)).map (fun e => e.1)

/-- The cells of one grid column, top to bottom. -/
def colCells (g : Grid) (ci : Nat) : List Cell :=
  (List.range g.height).map (fun ri => g.cell ri ci)

/-- Inner loop of `calc_lowest_char_changed_per_col`: scan row indices
`n-1, n-2, …, 0` and return the first row (i.e. the largest index) whose
grid character differs from the snapshot column's character; `0` if none
differs.  Mirrors `for row_index in (0..col.len()).rev() { if grid[..].c !=
col[row_index].c { index = row_index; break } }` with `index` initialised
to `0`. -/
def lowestDiffGo (g : Grid) (ci : Nat) (col : List Cell) : Nat → Nat
  | 0 => 0
  | n + 1 => if (g.cell n ci).c ≠ (col.getD n cellDefault).c then n else lowestDiffGo g ci col n

/-- Per-column body of `calc_lowest_char_changed_per_col`. -/
def lowestDiffCol (g : Grid) (ci : Nat) (col : List Cell) : Nat :=
  lowestDiffGo g ci col col.length

/-- `calc_lowest_char_changed_per_col` (both evolutions): for each column of
the previous snapshot, the lowest (largest-index) row whose current grid
character differs from the snapshot, defaulting to `0`. -/
def calc_lowest_char_changed_per_col (g : Grid) (orig : Snapshot) : List Nat :=
  (List.range orig.length).map (fun ci => lowestDiffCol g ci (orig.getD ci []))

/-- The trail entry visible at grid row `ri` of column `ci`: the code indexes
the trail at `relative_index = (col.len() - height) + ri`, i.e. into the
window formed by the last `height` entries. -/
def windowEntry (g : Grid) (cols : Columns) (ri ci : Nat) : Entry :=
  let col := cols.getD ci []
  col.getD (col.length - g.height + ri) default

/-- The change detector of `main.rs` (lines 348-362): `dirty` is set iff some
in-range cell's current character differs from the character of the trail
entry at that cell's window position. -/
def dirtyCheck (g : Grid) (cols : Columns) : Bool :=
  (List.range g.width).any (fun ci =>
    (List.range g.height).any (fun ri =>
      (g.cell ri ci).c ≠ (windowEntry g cols ri ci).1.c))

/-- The restore condition shared by `main.rs` (line 381) and `undo`
(animation.rs line 51): the current character equals the character the trail
holds at that window position, and that character differs from the
snapshot's character there. -/
def restoreCond (g : Grid) (orig : Snapshot) (cols : Columns) (ri ci : Nat) : Bool :=
  let matrix_ch := (windowEntry g cols ri ci).1
  let original_ch := (orig.getD ci []).getD ri cellDefault
  decide ((g.cell ri ci).c = matrix_ch.c ∧ matrix_ch.c ≠ original_ch.c)

/-- The restore loop shared by `main.rs` (lines 371-387) and `undo`
(animation.rs lines 42-57): every in-range cell satisfying `restoreCond` is
overwritten with the snapshot's cell; all other cells are untouched.  Each
grid cell is read only at its own coordinate before being written, so the
in-place Rust loop is order-independent and this pointwise update is a
faithful translation. -/
def restoreGrid (g : Grid) (orig : Snapshot) (cols : Columns) : Grid :=
  { g with cell := fun ri ci =>
      if ri < g.height ∧ ci < g.width ∧ restoreCond g orig cols ri ci = true then
        (orig.getD ci []).getD ri cellDefault
      else g.cell ri ci }

/-- The injected pseudo-random source: an infinite stream of naturals and the
current position.  `rand::thread_rng().gen_range(lo, hi)` is modelled as
drawing the next stream value reduced into `[lo, hi)`; `gen_bool(0.2)` as a
1-in-5 event on the next stream value. -/
structure Rng where
  seq : Nat → Nat
  pos : Nat

/-- `gen_range(lo, hi)`: a value in `[lo, hi)` (for `lo < hi`), advancing the
stream. -/
def Rng.genRange (r : Rng) (lo hi : Nat) : Nat × Rng :=
  (lo + r.seq r.pos % (hi - lo), { r with pos := r.pos + 1 })

/-- `gen_bool(0.2)`: a 1-in-5 draw, advancing the stream. -/
def Rng.genBool5 (r : Rng) : Bool × Rng :=
  (r.seq r.pos % 5 == 0, { r with pos := r.pos + 1 })

/-- The random-character burst of the trail generator (both evolutions;
`main.rs` lines 431-446, `animation.rs` lines 154-168): `total` is the drawn
`ran_char_count`, the first argument the number of iterations left; each
iteration draws a printable character in `[31, 126)`, colours it with a
brightness ramp keyed to `ran_char_count - i`, and sets `Flags::BOLD` with
probability 0.2. -/
def genBurst (total : Nat) (bg : Color) : Nat → Rng → List Entry × Rng
  | 0, rng => ([], rng)
  | k + 1, rng =>
    let i := total - (k + 1)
    let drawn := rng.genRange 31 126
    let base : Cell :=
      Cell.new (Char.ofNat drawn.1) (Color.spec ⟨0, 150 + (total - i) * 10, 0⟩) bg
    let bold := drawn.2.genBool5
    let e : Cell := if bold.1 then { base with flags := base.flags ||| boldFlag } else base
    let rest := genBurst total bg k bold.2
    ((e, false) :: rest.1, rest.2)

/-- One row of the trail generator (both evolutions): push the grid cell as a
Real entry; if it is non-blank and above the column's cutoff, append a random
burst of Synthetic characters followed by a random-length Synthetic blank
gap.  `ran_char_count` is `gen_range(2, 10)` and the gap length
`gen_range(2, 8)` (in `main.rs` via `max(10, 3)` and `max(8, 3)`, which
reduce to the same bounds). -/
def genRow (cell : Cell) (inCutoff : Bool) (rng : Rng) : List Entry × Rng :=
  if cell.c ≠ ' ' ∧ inCutoff = true then
    let cnt := rng.genRange 2 10
    let burst := genBurst cnt.1 cell.bg cnt.1 cnt.2
    let gapn := burst.2.genRange 2 8
    let gap : List Entry :=
      (List.range gapn.1).map (fun _ => (Cell.new ' ' cell.fg cell.bg, false))
    ((cell, true) :: (burst.1 ++ gap), gapn.2)
  else ([(cell, true)], rng)

/-- Rows `ri, ri+1, …` of one column of the trail generator; the first
argument is the number of rows still to process. -/
def genColFrom (g : Grid) (ci cutoff : Nat) : Nat → Nat → Rng → List Entry × Rng
  | 0, _, rng => ([], rng)
  | k + 1, ri, rng =>
    let grp := genRow (g.cell ri ci) (decide (ri < cutoff)) rng
    let rest := genColFrom g ci cutoff k (ri + 1) grp.2
    (grp.1 ++ rest.1, rest.2)

/-- One column of the trail generator (`main.rs` lines 414-456,
`animation.rs` lines 143-178): walk rows `0..height`.  (The
`interesting_chars`/`work_ratio` locals of `main.rs` lines 417-422 are
computed but never used by the source, and are omitted.) -/
def genCol (g : Grid) (ci cutoff : Nat) (rng : Rng) : List Entry × Rng :=
  genColFrom g ci cutoff g.height 0 rng

/-- Columns `ci, ci+1, …` of the trail generator; the first argument is the
number of columns still to process. -/
def genColsFrom (g : Grid) (lows : List Nat) : Nat → Nat → Rng → Columns × Rng
  | 0, _, rng => ([], rng)
  | k + 1, ci, rng =>
    let c := genCol g ci (lows.getD ci 0) rng
    let rest := genColsFrom g lows k (ci + 1) c.2
    (c.1 :: rest.1, rest.2)

/-- The full trail generator: one trail per grid column. -/
def genAll (g : Grid) (lows : List Nat) (rng : Rng) : Columns × Rng :=
  genColsFrom g lows g.width 0 rng

/-- The stepper's bottom-up scan (both evolutions; `main.rs` lines 463-472,
`animation.rs` lines 184-193).  It receives the reversed column and the
running index (initially `col.len() - 1`): walking entries from the tail,
break at the first Synthetic entry (recording that one was found) or on
reaching index 0. -/
def scanGo : List Entry → Nat → Nat × Bool
  | [], i => (i, false)
  | e :: rest, i =>
    if e.2 = false then (i, true)
    else if i = 0 then (0, false)
    else scanGo rest (i - 1)

/-- One stepper pass over a single column: remove the entry the scan stopped
at when its index is positive (`col.remove(index)`), and report whether a
Synthetic entry was seen.  (`col.len() - 1` underflows in Rust only for an
empty column, which the engine never produces for a grid of positive
height.) -/
def stepCol (col : List Entry) : List Entry × Bool :=
  let s := scanGo col.reverse (col.length - 1)
  (if 0 < s.1 then col.eraseIdx s.1 else col, s.2)

/-- The stepper over all columns, accumulating the `found` /
`unreal_char_found` flag. -/
def stepPhase : Columns → Columns × Bool
  | [] => ([], false)
  | c :: rest =>
    let s := stepCol c
    let r := stepPhase rest
    (s.1 :: r.1, s.2 || r.2)

/-- The renderer of `animation.rs` (lines 200-213): write each column's
visible window into the grid, skipping cells whose character already
matches.  Pointwise translation of the in-place loop (each cell is read only
at its own coordinate). -/
def renderCond (g : Grid) (cols : Columns) : Grid :=
  { g with cell := fun ri ci =>
      if ri < g.height ∧ ci < g.width then
        let e := (windowEntry g cols ri ci).1
        if (g.cell ri ci).c ≠ e.c then e else g.cell ri ci
      else g.cell ri ci }

/-- The renderer of `main.rs` (lines 491-499): write each column's visible
window into the grid unconditionally. -/
def renderAll (g : Grid) (cols : Columns) : Grid :=
  { g with cell := fun ri ci =>
      if ri < g.height ∧ ci < g.width then (windowEntry g cols ri ci).1
      else g.cell ri ci }

/-- `MatrixUndo` (animation.rs lines 11-17): the overlay state of the
`animation.rs` evolution. -/
structure AState where
  tick : Nat
  last_change_detected : Nat
  original_columns : Snapshot
  columns : Columns

/-- The overlay state of the `main.rs` evolution: the thread-local variables
of the background closure (`tick`, `last_change_detected`,
`original_columns : Option<…>`, `columns`, `snapshots`). -/
structure MState where
  tick : Nat
  last_change_detected : Nat
  original_columns : Option Snapshot
  columns : Columns
  snapshots : List Snapshot

/-- `undo` (animation.rs lines 30-61): return unchanged when no trails are
active; otherwise record the current tick as the last detected change, run
the restore loop when a snapshot exists, and clear the trail set.  The
snapshot (`original_columns`) is not modified. -/
def undo (g : Grid) (s : AState) : Grid × AState :=
  if s.columns = [] then (g, s)
  else
    let g' := if s.original_columns ≠ [] then restoreGrid g s.original_columns s.columns else g
    (g', { s with last_change_detected := s.tick, columns := [] })

/-- The resize check of `animation.rs` (lines 115-125): when trails are
active but their shape no longer matches the grid (column count, or Real
count of column 0 versus the row count), clear the trails and recapture the
snapshot from the current grid. -/
def animResizePhase (g : Grid) (s : AState) : AState :=
  if s.columns ≠ [] ∧
      (s.columns.length ≠ g.width ∨ realCount (s.columns.getD 0 []) ≠ g.height) then
    { s with columns := [], original_columns := screen_shot g }
  else s

/-- The first-run / snapshot-based cutoff choice of `animation.rs`
(lines 129-138): with no snapshot yet, every column's cutoff is the full
grid height; otherwise `calc_lowest_char_changed_per_col`. -/
def animCutoffs (g : Grid) (orig : Snapshot) : List Nat :=
  if orig = [] then (List.range g.width).map (fun _ => g.height)
  else calc_lowest_char_changed_per_col g orig

/-- The generation phase of `animation.rs` (lines 127-179): runs only when
no trails are active and at least 4 ticks have elapsed since
`last_change_detected`; computes the cutoffs, recaptures the snapshot
(after the cutoff calculation), and builds one trail per column. -/
def animGenPhase (g : Grid) (s : AState) (rng : Rng) : AState × Rng :=
  if s.columns = [] ∧ s.last_change_detected + 4 ≤ s.tick then
    let lows := animCutoffs g s.original_columns
    let gen := genAll g lows rng
    ({ s with original_columns := screen_shot g, columns := gen.1 }, gen.2)
  else (s, rng)

/-- One tick of the `animation.rs` background loop (lines 104-218):
increment the tick, run the resize check, conditionally generate, step every
trail, and re-render the visible windows when a Synthetic entry was seen.
The grid is read throughout under the one lock; only the renderer writes
it. -/
def animTick (g : Grid) (s : AState) (rng : Rng) : Grid × AState × Rng :=
  let s1 := { s with tick := s.tick + 1 }
  let s2 := animResizePhase g s1
  let gen := animGenPhase g s2 rng
  let st := stepPhase gen.1.columns
  let s3 := { gen.1 with columns := st.1 }
  let g' := if st.2 then renderCond g s3.columns else g
  (g', s3, gen.2)

/-- The initial-snapshot phase of `main.rs` (lines 312-316): while no trails
are active, retake the snapshot from the current grid. -/
def mainInitPhase (g : Grid) (s : MState) : MState :=
  if s.columns = [] then { s with original_columns := some (screen_shot g) } else s

/-- The resize check of `main.rs` (lines 335-346): when trails are active
but their shape no longer matches the grid, clear the trails, drop the
snapshot (`original_columns = None`) and clear the rest snapshots. -/
def mainResizePhase (g : Grid) (s : MState) : MState :=
  if s.columns ≠ [] ∧
      (s.columns.length ≠ g.width ∨ realCount (s.columns.getD 0 []) ≠ g.height) then
    { s with columns := [], original_columns := none, snapshots := [] }
  else s

/-- The dirty branch of `main.rs` (lines 363-397): record the tick of the
detected change, run the restore loop when a snapshot exists, recapture the
snapshot from the (now restored) grid, and clear the trail set. -/
def mainReconcile (g : Grid) (s : MState) : Grid × MState :=
  let g' := match s.original_columns with
    | some orig => restoreGrid g orig s.columns
    | none => g
  (g', { s with last_change_detected := s.tick,
                original_columns := some (screen_shot g'),
                columns := [] })

/-- The detect/restore phase of `main.rs` (lines 348-397): with trails
active, compare the grid against the trails' visible windows; on a
difference run `mainReconcile`, otherwise change nothing. -/
def mainDetectPhase (g : Grid) (s : MState) : Grid × MState :=
  if s.columns ≠ [] ∧ dirtyCheck g s.columns = true then mainReconcile g s else (g, s)

/-- The first-run / rest-snapshot cutoff choice of `main.rs`
(lines 402-411): with no rest snapshot, every column's cutoff is 0 (no
synthetic rows allowed); otherwise `calc_lowest_char_changed_per_col`
against `snapshots[0]`. -/
def mainCutoffs (g : Grid) (snapshots : List Snapshot) : List Nat :=
  if snapshots = [] then (List.range g.width).map (fun _ => 0)
  else calc_lowest_char_changed_per_col g (snapshots.getD 0 [])

/-- The generation phase of `main.rs` (lines 400-458): runs only when no
trails are active and at least 2 ticks have elapsed since
`last_change_detected`; computes the cutoffs from the rest snapshot, clears
the rest snapshots, and builds one trail per column. -/
def mainGenPhase (g : Grid) (s : MState) (rng : Rng) : MState × Rng :=
  if s.columns = [] ∧ s.last_change_detected + 2 ≤ s.tick then
    let lows := mainCutoffs g s.snapshots
    let gen := genAll g lows rng
    ({ s with snapshots := [], columns := gen.1 }, gen.2)
  else (s, rng)

/-- One tick of the `main.rs` background loop (lines 305-512): increment the
tick, retake the idle snapshot, run the resize check, detect/restore,
conditionally generate, step every trail, and either re-render the visible
windows (when a Synthetic entry was seen) or record the resting-state
snapshot. -/
def mainTick (g : Grid) (s : MState) (rng : Rng) : Grid × MState × Rng :=
  let s1 := { s with tick := s.tick + 1 }
  let s2 := mainInitPhase g s1
  let s3 := mainResizePhase g s2
  let det := mainDetectPhase g s3
  let gen := mainGenPhase det.1 det.2 rng
  let st := stepPhase gen.1.columns
  let s4 := { gen.1 with columns := st.1 }
  if st.2 then (renderAll det.1 s4.columns, s4, gen.2)
  else
    (det.1,
     if s4.snapshots = [] then { s4 with snapshots := [screen_shot det.1] } else s4,
     gen.2)

/-- Rust `usize` subtraction: `none` models the arithmetic-underflow panic. -/
def rustUsizeSub (a b : Nat) : Option Nat :=
  if a < b then none else some (a - b)

/-- The `relative_index` computation of `undo` (animation.rs line 45),
`std::cmp::max(col.len() - height, 0) + row_index`, with the `usize`
subtraction evaluated first — exactly as Rust evaluates it — so the
`max … 0` clamp applies only after the subtraction has already
underflowed. -/
def undoRelIndex (colLen height rowIndex : Nat) : Option Nat :=
  (rustUsizeSub colLen height).map (fun d => max d 0 + rowIndex)

/-- The `relative_index` computation of the `main.rs` detect/restore loops
(lines 354 and 374), `(col.len() - height) + row`, with unguarded `usize`
subtraction. -/
def mainRelIndex (colLen height rowIndex : Nat) : Option Nat :=
  (rustUsizeSub colLen height).map (fun d => d + rowIndex)

/-- Iterating the per-column stepper. -/
def stepIter : Nat → List Entry → List Entry
  | 0, t => t
  | n + 1, t => stepIter n (stepCol t).1

/-- The visible window of a trail: its last `h` entries. -/
def windowOf (h : Nat) (col : List Entry) : List Entry :=
  col.drop (col.length - h)

/-- The trail-set shape invariant of the spec (§3): the trail set is empty, or
has exactly one trail per grid column with the grid's row count of
Real-provenance entries in each. -/
def trailInv (g : Grid) (cols : Columns) : Prop :=
  cols = [] ∨ (cols.length = g.width ∧ ∀ col ∈ cols, realCount col = g.height)

lemma realCount_add_synthCount (l : List Entry) : realCount l + synthCount l = l.length := by
  induction l with
  | nil => rfl
  | cons e t ih =>
    rcases e with ⟨c, b⟩
    cases b <;> simp [realCount, synthCount, List.filter_cons] at ih ⊢ <;> omega

lemma length_realCells (l : List Entry) : (realCells l).length = realCount l := by
  simp [realCells, realCount]

lemma scanGo_realseg (R rest : List Entry) (hR : ∀ e ∈ R, e.2 = true) :
    ∀ i, R.length ≤ i → scanGo (R ++ rest) i = scanGo rest (i - R.length) := by
  induction R with
  | nil => intro i _; simp
  | cons e R ih =>
    intro i hi
    simp only [List.length_cons] at hi
    have he : e.2 = true := hR e (by simp)
    have hi0 : i ≠ 0 := by omega
    have h1 : scanGo ((e :: R) ++ rest) i = scanGo (R ++ rest) (i - 1) := by
      simp [scanGo, he, hi0]
    rw [h1, ih (fun x hx => hR x (by simp [hx])) (i - 1) (by omega)]
    congr 1
    simp only [List.length_cons]
    omega

lemma eraseIdx_append_cons {α : Type} (A : List α) (s : α) (B : List α) :
    (A ++ s :: B).eraseIdx A.length = A ++ B := by
  induction A with
  | nil => rfl
  | cons a A ih => simpa [List.eraseIdx] using ih

lemma stepCol_allReal (col : List Entry) (h : ∀ e ∈ col, e.2 = true) :
    stepCol col = (col, false) := by
  cases col with
  | nil => rfl
  | cons c cs =>
    have hc : c.2 = true := h c (by simp)
    have hcs : ∀ e ∈ cs.reverse, e.2 = true := by
      intro e he; exact h e (by simp at he; simp [he])
    have hscan : scanGo (cs.reverse ++ [c]) cs.length = (0, false) := by
      rw [show cs.length = cs.reverse.length by simp,
        scanGo_realseg cs.reverse [c] hcs cs.reverse.length (le_refl _)]
      simp [scanGo, hc]
    simp [stepCol, hscan]

lemma stepCol_split (A : List Entry) (s : Entry) (B : List Entry)
    (hs : s.2 = false) (hB : ∀ e ∈ B, e.2 = true) (hA : A ≠ []) :
    stepCol (A ++ s :: B) = (A ++ B, true) := by
  have hBrev : ∀ e ∈ B.reverse, e.2 = true := by
    intro e he; exact hB e (by simpa using he)
  have hApos : 0 < A.length := List.length_pos.mpr hA
  have hscan : scanGo (B.reverse ++ s :: A.reverse) (A.length + B.length) = (A.length, true) := by
    rw [scanGo_realseg B.reverse (s :: A.reverse) hBrev (A.length + B.length) (by simp)]
    have h2 : A.length + B.length - B.reverse.length = A.length := by simp
    rw [h2]
    simp [scanGo, hs]
  have herase := eraseIdx_append_cons A s B
  have hlen : A.length + (B.length + 1) - 1 = A.length + B.length := by omega
  simp only [stepCol, List.reverse_append, List.reverse_cons, List.length_append,
    List.length_cons, List.append_assoc, List.cons_append, List.nil_append, hlen, hscan]
  simp [hApos, herase]

lemma stepCol_synthHead (s : Entry) (B : List Entry)
    (hs : s.2 = false) (hB : ∀ e ∈ B, e.2 = true) :
    stepCol (s :: B) = (s :: B, true) := by
  have hBrev : ∀ e ∈ B.reverse, e.2 = true := by
    intro e he; exact hB e (by simpa using he)
  have hscan : scanGo (B.reverse ++ [s]) B.length = (0, true) := by
    rw [show B.length = B.reverse.length by simp,
      scanGo_realseg B.reverse [s] hBrev B.reverse.length (le_refl _)]
    simp [scanGo, hs]
  simp [stepCol, hscan]

/-- Every trail column is either Real-only or splits as
`A ++ s :: B` around its last Synthetic entry. -/
lemma trail_decompose (col : List Entry) :
    (∀ e ∈ col, e.2 = true) ∨
    ∃ A s B, col = A ++ s :: B ∧ (s : Entry).2 = false ∧ ∀ e ∈ B, e.2 = true := by
  induction col with
  | nil => left; intro e he; simp at he
  | cons c cs ih =>
    rcases ih with hall | ⟨A, s, B, heq, hs, hB⟩
    · by_cases hc : c.2 = true
      · left; intro e he
        rcases List.mem_cons.mp he with rfl | hm
        · exact hc
        · exact hall e hm
      · right
        exact ⟨[], c, cs, by simp, by simpa using hc, hall⟩
    · right
      exact ⟨c :: A, s, B, by simp [heq], hs, hB⟩

/-- Stepping never alters or removes a Real entry. -/
lemma realCells_stepCol (col : List Entry) : realCells (stepCol col).1 = realCells col := by
  rcases trail_decompose col with hall | ⟨A, s, B, heq, hs, hB⟩
  · rw [stepCol_allReal col hall]
  · subst heq
    cases A with
    | nil =>
      simp only [List.nil_append]
      rw [stepCol_synthHead s B hs hB]
    | cons a A2 =>
      rw [stepCol_split (a :: A2) s B hs hB (by simp)]
      simp [realCells, List.filter_append, List.filter_cons, hs]

lemma realCount_stepCol (col : List Entry) : realCount (stepCol col).1 = realCount col := by
  rw [← length_realCells, ← length_realCells, realCells_stepCol]

lemma stepPhase_fst (cols : Columns) :
    (stepPhase cols).1 = cols.map (fun c => (stepCol c).1) := by
  induction cols with
  | nil => rfl
  | cons c rest ih => simp [stepPhase, ih]

/-- A trail is an interleaving of a column's cells: each cell appears as a
Real entry, immediately followed by a (possibly empty) run of Synthetic
entries.  Freshly generated trails have exactly this shape. -/
inductive Interleaved : List Cell → List Entry → Prop
  | nil : Interleaved [] []
  | cons (c : Cell) (synths : List Entry) (cs : List Cell) (t : List Entry) :
      (∀ e ∈ synths, e.2 = false) → Interleaved cs t →
      Interleaved (c :: cs) ((c, true) :: synths ++ t)

lemma Interleaved.realFilter {cs : List Cell} {t : List Entry} (h : Interleaved cs t) :
    t.filter (fun e => e.2) = cs.map (fun c => (c, true)) := by
  induction h with
  | nil => rfl
  | cons c synths cs t hsyn _ ih =>
    have hs : synths.filter (fun e => e.2) = [] := by
      rw [List.filter_eq_nil_iff]
      intro e he
      simp [hsyn e he]
    simp [List.filter_cons, List.filter_append, hs, ih]

lemma Interleaved.realCount_eq {cs : List Cell} {t : List Entry} (h : Interleaved cs t) :
    realCount t = cs.length := by
  simp [realCount, h.realFilter]

lemma Interleaved.realCells_eq {cs : List Cell} {t : List Entry} (h : Interleaved cs t) :
    realCells t = cs := by
  rw [realCells, h.realFilter, List.map_map]
  exact List.map_id'' (fun c => rfl) cs

lemma synthCount_eq_zero_iff (l : List Entry) :
    synthCount l = 0 ↔ ∀ e ∈ l, e.2 = true := by
  simp only [synthCount, List.length_eq_zero, List.filter_eq_nil_iff]
  constructor
  · intro h e he
    have := h e he
    simpa using this
  · intro h e he
    simp [h e he]

lemma Interleaved.noSynth {cs : List Cell} {t : List Entry} (h : Interleaved cs t)
    (h0 : synthCount t = 0) : t = cs.map (fun c => (c, true)) := by
  induction h with
  | nil => rfl
  | cons c synths cs t hsyn hI ih =>
    have hall := (synthCount_eq_zero_iff _).mp h0
    have hsy : synths = [] := by
      cases synths with
      | nil => rfl
      | cons e es =>
        have h1 : e.2 = true := hall e (by simp)
        have h2 : e.2 = false := hsyn e (by simp)
        rw [h1] at h2
        exact absurd h2 (by simp)
    subst hsy
    have h0t : synthCount t = 0 := by
      rw [synthCount_eq_zero_iff]
      intro e he
      exact hall e (by simp [he])
    simp [ih h0t]

lemma synthCount_append (a b : List Entry) :
    synthCount (a ++ b) = synthCount a + synthCount b := by
  simp [synthCount, List.filter_append]

/-- A trail with Synthetic entries left splits around its last Synthetic
entry; removing it preserves the interleaving shape. -/
lemma Interleaved.step {cs : List Cell} {t : List Entry} (h : Interleaved cs t)
    (h0 : 0 < synthCount t) :
    ∃ A s B, t = A ++ s :: B ∧ (s : Entry).2 = false ∧ (∀ e ∈ B, e.2 = true) ∧
      A ≠ [] ∧ Interleaved cs (A ++ B) := by
  induction h with
  | nil => simp [synthCount] at h0
  | cons c synths cs t hsyn hI ih =>
    by_cases ht : 0 < synthCount t
    · obtain ⟨A, s, B, heq, hs, hB, hA, hIAB⟩ := ih ht
      refine ⟨(c, true) :: synths ++ A, s, B, ?_, hs, hB, by simp, ?_⟩
      · simp [heq]
      · have : (c, true) :: synths ++ A ++ B = (c, true) :: synths ++ (A ++ B) := by simp
        rw [this]
        exact Interleaved.cons c synths cs (A ++ B) hsyn hIAB
    · have h0t : synthCount t = 0 := by omega
      have htall := (synthCount_eq_zero_iff t).mp h0t
      have hsyne : synths ≠ [] := by
        intro hnil
        subst hnil
        have hcons : synthCount ([(c, true)] ++ t) = synthCount t := by
          simp [synthCount, List.filter_append, List.filter_cons]
        omega
      obtain ⟨S, s, hS⟩ := List.eq_nil_or_concat synths |>.resolve_left hsyne
      subst hS
      have hsS : ∀ e ∈ S, e.2 = false := fun e he => hsyn e (by simp [he])
      have hs : s.2 = false := hsyn s (by simp)
      refine ⟨(c, true) :: S, s, t, by simp, hs, htall, by simp, ?_⟩
      have : (c, true) :: S ++ t = (c, true) :: S ++ t := rfl
      exact Interleaved.cons c S cs t hsS hI

/-- Draining an interleaved trail: stepping once per Synthetic entry leaves
exactly the Real-only content. -/
lemma Interleaved.exhaust {cs : List Cell} {t : List Entry} (h : Interleaved cs t) :
    stepIter (synthCount t) t = cs.map (fun c => (c, true)) := by
  generalize hn : synthCount t = n
  induction n generalizing t with
  | zero => exact h.noSynth hn
  | succ n ih =>
    obtain ⟨A, s, B, heq, hs, hB, hA, hIAB⟩ := h.step (by omega)
    subst heq
    have hstep : stepCol (A ++ s :: B) = (A ++ B, true) := stepCol_split A s B hs hB hA
    have hcount : synthCount (A ++ B) = n := by
      have h1 := synthCount_append A (s :: B)
      have h2 := synthCount_append A B
      have h3 : synthCount (s :: B) = synthCount B + 1 := by
        simp [synthCount, List.filter_cons, hs]
      omega
    have : stepIter (n + 1) (A ++ s :: B) = stepIter n (A ++ B) := by
      simp [stepIter, hstep]
    rw [this]
    exact ih hIAB hcount

lemma genBurst_allFalse (total : Nat) (bg : Color) :
    ∀ k rng, ∀ e ∈ (genBurst total bg k rng).1, e.2 = false := by
  intro k
  induction k with
  | zero => intro rng e he; simp [genBurst] at he
  | succ k ih =>
    intro rng e he
    simp only [genBurst, List.mem_cons] at he
    rcases he with rfl | hm
    · rfl
    · exact ih _ e hm

lemma genRow_shape (cell : Cell) (b : Bool) (rng : Rng) :
    ∃ synths, (genRow cell b rng).1 = (cell, true) :: synths ∧ ∀ e ∈ synths, e.2 = false := by
  rw [genRow]
  by_cases hc : cell.c ≠ ' ' ∧ b = true
  · rw [if_pos hc]
    refine ⟨_, rfl, ?_⟩
    intro e he
    rcases List.mem_append.mp he with hm | hm
    · exact genBurst_allFalse _ _ _ _ e hm
    · obtain ⟨_, _, rfl⟩ := List.mem_map.mp hm
      rfl
  · rw [if_neg hc]
    exact ⟨[], rfl, by intro e he; simp at he⟩

lemma genColFrom_interleaved (g : Grid) (ci cutoff : Nat) :
    ∀ k ri rng,
      Interleaved ((List.range' ri k).map (fun r => g.cell r ci))
        (genColFrom g ci cutoff k ri rng).1 := by
  intro k
  induction k with
  | zero => intro ri rng; exact Interleaved.nil
  | succ k ih =>
    intro ri rng
    obtain ⟨synths, hrow, hsyn⟩ :=
      genRow_shape (g.cell ri ci) (decide (ri < cutoff)) rng
    have hr : List.range' ri (k + 1) = ri :: List.range' (ri + 1) k := rfl
    rw [hr]
    simp only [List.map_cons]
    have hg : (genColFrom g ci cutoff (k + 1) ri rng).1 =
        (g.cell ri ci, true) :: synths ++
          (genColFrom g ci cutoff k (ri + 1) (genRow (g.cell ri ci) (decide (ri < cutoff)) rng).2).1 := by
      simp [genColFrom, hrow]
    rw [hg]
    exact Interleaved.cons _ synths _ _ hsyn (ih (ri + 1) _)

/-- A freshly generated trail column is an interleaving of the grid
column's cells. -/
lemma genCol_interleaved (g : Grid) (ci cutoff : Nat) (rng : Rng) :
    Interleaved (colCells g ci) (genCol g ci cutoff rng).1 := by
  have h := genColFrom_interleaved g ci cutoff g.height 0 rng
  rwa [colCells, List.range_eq_range']

lemma genCol_realCount (g : Grid) (ci cutoff : Nat) (rng : Rng) :
    realCount (genCol g ci cutoff rng).1 = g.height := by
  have h := (genCol_interleaved g ci cutoff rng).realCount_eq
  simpa [colCells] using h

lemma genColsFrom_length (g : Grid) (lows : List Nat) :
    ∀ k ci rng, ((genColsFrom g lows k ci rng).1).length = k := by
  intro k
  induction k with
  | zero => intro ci rng; rfl
  | succ k ih => intro ci rng; simp [genColsFrom, ih]

lemma genColsFrom_mem (g : Grid) (lows : List Nat) :
    ∀ k ci rng col, col ∈ (genColsFrom g lows k ci rng).1 →
      ∃ ci2 rng2, col = (genCol g ci2 (lows.getD ci2 0) rng2).1 := by
  intro k
  induction k with
  | zero => intro ci rng col h; simp [genColsFrom] at h
  | succ k ih =>
    intro ci rng col h
    simp only [genColsFrom, List.mem_cons] at h
    rcases h with rfl | hm
    · exact ⟨ci, rng, rfl⟩
    · exact ih _ _ col hm

lemma genAll_length (g : Grid) (lows : List Nat) (rng : Rng) :
    ((genAll g lows rng).1).length = g.width :=
  genColsFrom_length g lows g.width 0 rng

lemma genAll_realCount (g : Grid) (lows : List Nat) (rng : Rng) :
    ∀ col ∈ (genAll g lows rng).1, realCount col = g.height := by
  intro col hm
  obtain ⟨ci2, rng2, rfl⟩ := genColsFrom_mem g lows g.width 0 rng col hm
  exact genCol_realCount g ci2 _ rng2

lemma genAll_trailInv (g : Grid) (lows : List Nat) (rng : Rng) :
    trailInv g (genAll g lows rng).1 :=
  Or.inr ⟨genAll_length g lows rng, genAll_realCount g lows rng⟩

lemma stepPhase_trailInv (g : Grid) (cols : Columns) (h : trailInv g cols) :
    trailInv g (stepPhase cols).1 := by
  rcases h with h | ⟨hlen, hrc⟩
  · subst h; left; rfl
  · right
    rw [stepPhase_fst]
    constructor
    · simpa using hlen
    · intro col hm
      obtain ⟨c0, hc0, rfl⟩ := List.mem_map.mp hm
      rw [realCount_stepCol]
      exact hrc c0 hc0

/-! Concrete cells, grids and streams used by witnesses and counterexamples. -/

def cA : Cell := Cell.new 'A' (Color.other 1) (Color.other 2)

def cB : Cell := Cell.new 'B' (Color.other 1) (Color.other 2)

def cC : Cell := Cell.new 'C' (Color.other 1) (Color.other 2)

def cX : Cell := Cell.new 'X' (Color.other 1) (Color.other 2)

/-- Same character as `cA` but different colours. -/
def cA2 : Cell := Cell.new 'A' (Color.other 3) (Color.other 4)

def gX1 : Grid := ⟨1, 1, fun _ _ => cX⟩

def gA1 : Grid := ⟨1, 1, fun _ _ => cA⟩

def gA1c : Grid := ⟨1, 1, fun _ _ => cA2⟩

def gC1 : Grid := ⟨1, 1, fun _ _ => cC⟩

def gA21 : Grid := ⟨2, 1, fun _ _ => cA⟩

def rngZero : Rng := ⟨fun _ => 0, 0⟩

/-- Claim C1 (restoration fidelity, confirmed): the restore loop overwrites
with the snapshot value exactly those in-range cells whose current character
equals the character at the trail's visible-window position and differs from
the snapshot's character there; every other cell keeps its current (possibly
externally written) value exactly. -/
theorem restoration_fidelity (g : Grid) (orig : Snapshot) (cols : Columns)
    (ri ci : Nat) (hri : ri < g.height) (hci : ci < g.width) :
    ((g.cell ri ci).c = (windowEntry g cols ri ci).1.c ∧
        (windowEntry g cols ri ci).1.c ≠ ((orig.getD ci []).getD ri cellDefault).c →
      (restoreGrid g orig cols).cell ri ci = (orig.getD ci []).getD ri cellDefault) ∧
    ((g.cell ri ci).c ≠ (windowEntry g cols ri ci).1.c ∨
        (windowEntry g cols ri ci).1.c = ((orig.getD ci []).getD ri cellDefault).c →
      (restoreGrid g orig cols).cell ri ci = g.cell ri ci) := by
  constructor
  · intro h
    have hcond : restoreCond g orig cols ri ci = true := by
      simp only [restoreCond, decide_eq_true_eq]
      exact h
    simp [restoreGrid, hri, hci, hcond]
  · intro h
    have hcond : restoreCond g orig cols ri ci = false := by
      simp only [restoreCond, decide_eq_false_iff_not]
      tauto
    simp [restoreGrid, hcond]

/-- Witness for C1: a cell the overlay wrote (grid shows the trail's
character, differing from the snapshot) is reverted to the snapshot cell. -/
theorem restoration_fidelity_witness :
    (restoreGrid gX1 [[cA]] [[(cX, false)]]).cell 0 0 = cA := by
  have h := restoration_fidelity gX1 [[cA]] [[(cX, false)]] 0 0 (by decide) (by decide)
  exact h.1 (by decide)

/-- Claim C9 (underflow guard, code_bug): the "rows already consumed"
computations are not in fact guarded.  `main.rs` line 354 subtracts with a
bare `col.len() - height`; `undo` (animation.rs line 45) wraps the already
underflowed subtraction in `max(…, 0)`, which is the identity on `usize`.
Both panic (modelled as `none`) on a trail shorter than the grid height. -/
theorem underflow_unguarded :
    undoRelIndex 2 3 0 = none ∧ mainRelIndex 2 3 0 = none ∧
      rustUsizeSub 2 3 = none ∧ undoRelIndex 3 1 4 = some 6 := by
  decide

lemma anyList_congr {α : Type} (l : List α) (f f2 : α → Bool) (h : ∀ x, f x = f2 x) :
    l.any f = l.any f2 := by
  induction l with
  | nil => rfl
  | cons a t ih => simp [List.any_cons, h, ih]

lemma mapList_congr {α β : Type} (l : List α) (f f2 : α → β) (h : ∀ x, f x = f2 x) :
    l.map f = l.map f2 := by
  induction l with
  | nil => rfl
  | cons a t ih => simp [h, ih]

lemma windowEntry_height_congr (g1 g2 : Grid) (cols : Columns) (ri ci : Nat)
    (hh : g1.height = g2.height) :
    windowEntry g1 cols ri ci = windowEntry g2 cols ri ci := by
  simp [windowEntry, hh]

lemma lowestDiffGo_congr (g1 g2 : Grid) (ci : Nat) (col : List Cell)
    (hc : ∀ ri ci, (g1.cell ri ci).c = (g2.cell ri ci).c) :
    ∀ n, lowestDiffGo g1 ci col n = lowestDiffGo g2 ci col n := by
  intro n
  induction n with
  | zero => rfl
  | succ n ih => simp [lowestDiffGo, hc, ih]

/-- Claim C10 (character-only sensitivity, confirmed): on two grids of equal
extents that agree on every cell's character — however their colours and
style flags differ — the change detector's signal, the per-column cutoffs
and the set of cells selected by the restore condition are identical. -/
theorem char_only_sensitivity (g1 g2 : Grid) (cols : Columns) (orig : Snapshot)
    (hh : g1.height = g2.height) (hw : g1.width = g2.width)
    (hc : ∀ ri ci, (g1.cell ri ci).c = (g2.cell ri ci).c) :
    dirtyCheck g1 cols = dirtyCheck g2 cols ∧
    calc_lowest_char_changed_per_col g1 orig = calc_lowest_char_changed_per_col g2 orig ∧
    ∀ ri ci, restoreCond g1 orig cols ri ci = restoreCond g2 orig cols ri ci := by
  refine ⟨?_, ?_, ?_⟩
  · unfold dirtyCheck
    rw [hw]
    apply anyList_congr
    intro ci
    rw [hh]
    apply anyList_congr
    intro ri
    rw [windowEntry_height_congr g1 g2 cols ri ci hh, hc ri ci]
  · unfold calc_lowest_char_changed_per_col lowestDiffCol
    apply mapList_congr
    intro ci
    exact lowestDiffGo_congr g1 g2 ci _ hc _
  · intro ri ci
    unfold restoreCond
    rw [windowEntry_height_congr g1 g2 cols ri ci hh, hc ri ci]

/-- Witness for C10: a grid recoloured cell-for-cell (same characters)
produces the same change-detector signal. -/
theorem char_only_sensitivity_witness :
    dirtyCheck gA1 [[(cB, true)]] = dirtyCheck gA1c [[(cB, true)]] :=
  (char_only_sensitivity gA1 gA1c [[(cB, true)]] [] rfl rfl (fun _ _ => rfl)).1

/-- Counterexample to C8 as stated: grid `['X']`, trail `[(A, Real),
(X, Synthetic)]` (one Real entry, matching the 1-row grid).  The grid's
character differs from the trail's Real-provenance character at row 0
(`'X' ≠ 'A'`), yet the detector — which compares against the visible-window
entry `(X, Synthetic)` — signals no change. -/
theorem change_detection_counterexample :
    dirtyCheck gX1 [[(cA, true), (cX, false)]] = false ∧
    realCount [(cA, true), (cX, false)] = gX1.height ∧
    (gX1.cell 0 0).c ≠ ((realCells [(cA, true), (cX, false)]).getD 0 cellDefault).c := by
  decide

/-- Claim C8 as amended (corrected): while a trail set is active the
detector signals a change iff some in-range cell's current character
differs from the character at that cell's position in the trail's visible
window (its last `rows` entries, whatever their provenance); and a tick on
which the detector stays quiet leaves the grid and state untouched. -/
theorem change_detection_window (g : Grid) (s : MState)
    (hlen : s.columns.length = g.width)
    (hwin : ∀ c ∈ s.columns, g.height ≤ c.length) :
    (dirtyCheck g s.columns = true ↔
      ∃ ci, ci < g.width ∧ ∃ ri, ri < g.height ∧
        (g.cell ri ci).c ≠ (windowEntry g s.columns ri ci).1.c) ∧
    (dirtyCheck g s.columns = false → mainDetectPhase g s = (g, s)) := by
  constructor
  · unfold dirtyCheck
    simp [List.any_eq_true, List.mem_range]
  · intro h
    unfold mainDetectPhase
    rw [h]
    simp

/-- Witness for C8 (amended): a live external change (grid differs from the
window) is signalled; on a quiet grid the detect phase is the identity. -/
theorem change_detection_window_witness :
    dirtyCheck gC1 [[(cB, true)]] = true := by
  have h := change_detection_window gC1 ⟨5, 0, some [[cA]], [[(cB, true)]], []⟩
    (by decide) (by decide)
  exact h.1.mpr ⟨0, by decide, 0, by decide, by decide⟩

/-- Counterexample to C2 as stated: `undo` (animation.rs) is a run of the
Restore Engine, but it leaves the Snapshot (`original_columns`) untouched:
after restoring against grid `['C']` (an external change: the trail window
holds `'B'`), the stored snapshot `[[A]]` is not a capture of the restored
grid. -/
theorem post_restore_reset_counterexample :
    (undo gC1 ⟨10, 0, [[cA]], [[(cB, true)]]⟩).2.original_columns ≠
        screen_shot (undo gC1 ⟨10, 0, [[cA]], [[(cB, true)]]⟩).1 ∧
    (undo gC1 ⟨10, 0, [[cA]], [[(cB, true)]]⟩).2.columns = [] := by
  constructor
  · intro h
    have h2 : (undo gC1 ⟨10, 0, [[cA]], [[(cB, true)]]⟩).2.original_columns =
        [[cA]] := by rfl
    have h3 : screen_shot (undo gC1 ⟨10, 0, [[cA]], [[(cB, true)]]⟩).1 = [[cC]] := by rfl
    rw [h2, h3] at h
    simp [cA, cC, Cell.new] at h
  · rfl

/-- Claim C2 as amended (corrected): in the `main.rs` evolution every dirty
tick ends with the Snapshot replaced by a fresh capture of the restored
grid, the trail set cleared and `last_change_detected` set to the current
tick; in the `animation.rs` evolution `undo` clears the trail set and sets
`last_change_detected` to the current tick but leaves the Snapshot
unchanged (it is only recaptured by a later Generator run). -/
theorem post_restore_reset_amended (g : Grid) (s : MState)
    (hne : s.columns ≠ []) (hd : dirtyCheck g s.columns = true)
    (g2 : Grid) (s2 : AState) (hne2 : s2.columns ≠ []) :
    ((mainDetectPhase g s).2.original_columns =
        some (screen_shot (mainDetectPhase g s).1) ∧
      (mainDetectPhase g s).2.columns = [] ∧
      (mainDetectPhase g s).2.last_change_detected = s.tick) ∧
    ((undo g2 s2).2.columns = [] ∧
      (undo g2 s2).2.last_change_detected = s2.tick ∧
      (undo g2 s2).2.original_columns = s2.original_columns) := by
  constructor
  · unfold mainDetectPhase
    rw [if_pos ⟨hne, hd⟩]
    unfold mainReconcile
    cases s.original_columns <;> exact ⟨rfl, rfl, rfl⟩
  · unfold undo
    rw [if_neg hne2]
    by_cases ho : s2.original_columns ≠ [] <;> simp [ho]

/-- Witness for C2 (amended): concrete dirty tick in both evolutions. -/
theorem post_restore_reset_amended_witness :
    (mainDetectPhase gC1 ⟨5, 0, some [[cA]], [[(cB, true)]], []⟩).2.columns = [] ∧
    (undo gC1 ⟨10, 0, [[cA]], [[(cB, true)]]⟩).2.columns = [] := by
  have h := post_restore_reset_amended gC1 ⟨5, 0, some [[cA]], [[(cB, true)]], []⟩
    (by decide) (by decide) gC1 ⟨10, 0, [[cA]], [[(cB, true)]]⟩ (by decide)
  exact ⟨h.1.2.1, h.2.1⟩

/-- Counterexample to C6 as stated: in the `main.rs` evolution a resize
reset (here a trail whose Real count 2 mismatches the 1-row grid) clears
the trails but sets the Snapshot to `None` and clears the rest snapshots —
so no freshly captured snapshot of the new shape exists, while the very
same tick's Generator gate (`last_change_detected + 2 <= tick`) is already
open and generation proceeds with no snapshot present. -/
theorem resize_reset_counterexample :
    (mainResizePhase gC1 (mainInitPhase gC1
        ⟨11, 0, some [[cA]], [[(cA, true), (cA, true)]], []⟩)).original_columns = none ∧
    (mainResizePhase gC1 (mainInitPhase gC1
        ⟨11, 0, some [[cA]], [[(cA, true), (cA, true)]], []⟩)).snapshots = [] ∧
    (mainResizePhase gC1 (mainInitPhase gC1
        ⟨11, 0, some [[cA]], [[(cA, true), (cA, true)]], []⟩)).columns = [] ∧
    (mainGenPhase gC1 (mainResizePhase gC1 (mainInitPhase gC1
        ⟨11, 0, some [[cA]], [[(cA, true), (cA, true)]], []⟩)) rngZero).1.columns ≠ [] := by
  refine ⟨rfl, rfl, rfl, ?_⟩
  intro h
  have h2 : (mainGenPhase gC1 (mainResizePhase gC1 (mainInitPhase gC1
      ⟨11, 0, some [[cA]], [[(cA, true), (cA, true)]], []⟩)) rngZero).1.columns =
      (genAll gC1 (mainCutoffs gC1 []) rngZero).1 := rfl
  rw [h2] at h
  have h3 := genAll_length gC1 (mainCutoffs gC1 []) rngZero
  rw [h] at h3
  simp [gC1] at h3

/-- Claim C6 as amended (corrected): a shape mismatch between grid and
active trail set triggers an unconditional reset in both evolutions — the
trails become empty and no restoration is attempted against the resized
grid; the `animation.rs` evolution recaptures a fresh Snapshot of the new
shape at the reset, while the `main.rs` evolution instead drops the
Snapshot (`None`) and clears the rest snapshots, so its next Generator run
may occur with no snapshot present. -/
theorem resize_resets_amended (g : Grid) (s : AState) (hne : s.columns ≠ [])
    (huni : ∀ c ∈ s.columns, realCount c = realCount (s.columns.getD 0 []))
    (hmis : s.columns.length ≠ g.width ∨ ∃ c ∈ s.columns, realCount c ≠ g.height)
    (g2 : Grid) (s2 : MState) (hne2 : s2.columns ≠ [])
    (hmis2 : s2.columns.length ≠ g2.width ∨ realCount (s2.columns.getD 0 []) ≠ g2.height) :
    ((animResizePhase g s).columns = [] ∧
      (animResizePhase g s).original_columns = screen_shot g ∧
      (screen_shot g).length = g.width ∧
      (∀ col ∈ screen_shot g, col.length = g.height)) ∧
    ((mainResizePhase g2 s2).columns = [] ∧
      (mainResizePhase g2 s2).original_columns = none ∧
      (mainResizePhase g2 s2).snapshots = [] ∧
      mainDetectPhase g2 (mainResizePhase g2 s2) = (g2, mainResizePhase g2 s2)) := by
  have hcond : s.columns.length ≠ g.width ∨ realCount (s.columns.getD 0 []) ≠ g.height := by
    rcases hmis with h | ⟨c, hm, hc⟩
    · exact Or.inl h
    · right
      intro hgeq
      exact hc ((huni c hm).trans hgeq)
  constructor
  · unfold animResizePhase
    rw [if_pos ⟨hne, hcond⟩]
    refine ⟨rfl, rfl, by simp [screen_shot], ?_⟩
    intro col hm
    unfold screen_shot at hm
    obtain ⟨ci, _, rfl⟩ := List.mem_map.mp hm
    simp
  · unfold mainResizePhase
    rw [if_pos ⟨hne2, hmis2⟩]
    refine ⟨rfl, rfl, rfl, ?_⟩
    unfold mainDetectPhase
    simp

/-- Witness for C6 (amended): concrete mismatched states in both
evolutions. -/
theorem resize_resets_amended_witness :
    (animResizePhase gC1 ⟨10, 0, [[cA]], [[(cA, true), (cA, true)]]⟩).columns = [] ∧
    (mainResizePhase gC1 ⟨11, 0, some [[cA]], [[(cA, true), (cA, true)]], []⟩).columns
      = [] := by
  have h := resize_resets_amended gC1 ⟨10, 0, [[cA]], [[(cA, true), (cA, true)]]⟩
    (by decide) (by decide) (by right; exact ⟨[(cA, true), (cA, true)], by decide, by decide⟩)
    gC1 ⟨11, 0, some [[cA]], [[(cA, true), (cA, true)]], []⟩ (by decide) (by decide)
  exact ⟨h.1.1, h.2.1⟩

lemma lowestDiffGo_spec (g : Grid) (ci : Nat) (col : List Cell) :
    ∀ n,
      (lowestDiffGo g ci col n = 0 ∧
        ∀ r, 0 < r → r < n → (g.cell r ci).c = (col.getD r cellDefault).c) ∨
      (lowestDiffGo g ci col n < n ∧
        (g.cell (lowestDiffGo g ci col n) ci).c ≠
          (col.getD (lowestDiffGo g ci col n) cellDefault).c ∧
        ∀ r, lowestDiffGo g ci col n < r → r < n →
          (g.cell r ci).c = (col.getD r cellDefault).c) := by
  intro n
  induction n with
  | zero => exact Or.inl ⟨rfl, fun r h1 h2 => absurd h2 (by omega)⟩
  | succ n ih =>
    by_cases hd : (g.cell n ci).c ≠ (col.getD n cellDefault).c
    · right
      have he : lowestDiffGo g ci col (n + 1) = n := by
        show (if (g.cell n ci).c ≠ (col.getD n cellDefault).c then n
          else lowestDiffGo g ci col n) = n
        rw [if_pos hd]
      rw [he]
      exact ⟨by omega, hd, fun r h1 h2 => absurd h1 (by omega)⟩
    · have he : lowestDiffGo g ci col (n + 1) = lowestDiffGo g ci col n := by
        show (if (g.cell n ci).c ≠ (col.getD n cellDefault).c then n
          else lowestDiffGo g ci col n) = lowestDiffGo g ci col n
        rw [if_neg hd]
      push_neg at hd
      rw [he]
      rcases ih with ⟨h0, hall⟩ | ⟨hlt, hdiff, hall⟩
      · left
        refine ⟨h0, fun r h1 h2 => ?_⟩
        rcases Nat.lt_succ_iff_lt_or_eq.mp h2 with h | rfl
        · exact hall r h1 h
        · exact hd
      · right
        refine ⟨by omega, hdiff, fun r h1 h2 => ?_⟩
        rcases Nat.lt_succ_iff_lt_or_eq.mp h2 with h | rfl
        · exact hall r h1 h
        · exact hd

lemma calc_getD (g : Grid) (orig : Snapshot) (ci : Nat) (hci : ci < orig.length) :
    (calc_lowest_char_changed_per_col g orig).getD ci 0 =
      lowestDiffCol g ci (orig.getD ci []) := by
  unfold calc_lowest_char_changed_per_col
  rw [List.getD_eq_getElem?_getD, List.getElem?_map, List.getElem?_range hci]
  rfl

/-- Counterexample to C7 as stated: on a first run (no snapshot at all) the
`animation.rs` evolution sets every column's cutoff to the grid height
(every synthetic row allowed), not 0: on a 2-row, 1-column grid the cutoff
list is `[2]`. -/
theorem lowest_cutoff_counterexample :
    animCutoffs gA21 [] = [2] ∧ (2 : Nat) ≠ 0 := by
  constructor
  · rfl
  · decide

/-- Claim C7 as amended (corrected): the per-column cutoff computed by
`calc_lowest_char_changed_per_col` is the largest row index at which the
grid character differs from the snapshot's character, defaulting to 0 when
no row differs; when no snapshot exists at all (first run), the cutoff is 0
for every column in the `main.rs` evolution, while the `animation.rs`
evolution instead uses the full grid height (every row eligible). -/
theorem lowest_cutoff_amended (g : Grid) (orig : Snapshot) (ci : Nat)
    (hci : ci < orig.length) (g2 g3 : Grid) :
    (((calc_lowest_char_changed_per_col g orig).getD ci 0 = 0 ∧
        ∀ r, 0 < r → r < (orig.getD ci []).length →
          (g.cell r ci).c = ((orig.getD ci []).getD r cellDefault).c) ∨
      ((calc_lowest_char_changed_per_col g orig).getD ci 0 < (orig.getD ci []).length ∧
        (g.cell ((calc_lowest_char_changed_per_col g orig).getD ci 0) ci).c ≠
          ((orig.getD ci []).getD ((calc_lowest_char_changed_per_col g orig).getD ci 0)
            cellDefault).c ∧
        ∀ r, (calc_lowest_char_changed_per_col g orig).getD ci 0 < r →
          r < (orig.getD ci []).length →
          (g.cell r ci).c = ((orig.getD ci []).getD r cellDefault).c)) ∧
    mainCutoffs g2 [] = List.replicate g2.width 0 ∧
    animCutoffs g3 [] = List.replicate g3.width g3.height := by
  refine ⟨?_, ?_, ?_⟩
  · rw [calc_getD g orig ci hci]
    exact lowestDiffGo_spec g ci (orig.getD ci []) (orig.getD ci []).length
  · unfold mainCutoffs
    simp
  · unfold animCutoffs
    simp

/-- Witness for C7 (amended): on a quiet 1×1 grid matching its snapshot the
cutoff defaults to 0 (characterised as the no-difference case) and the
first-run policies evaluate as stated. -/
theorem lowest_cutoff_amended_witness :
    mainCutoffs gA1 [] = [0] ∧ animCutoffs gA21 [] = [2] := by
  have h := lowest_cutoff_amended gA1 [[cA]] 0 (by decide) gA1 gA21
  refine ⟨?_, ?_⟩
  · rw [h.2.1]; rfl
  · rw [h.2.2]; rfl

lemma animResizePhase_empty (g : Grid) (s : AState) (h : s.columns = []) :
    animResizePhase g s = s := by
  unfold animResizePhase
  rw [if_neg]
  simp [h]

lemma animGenPhase_skip (g : Grid) (s : AState) (rng : Rng)
    (h : ¬(s.columns = [] ∧ s.last_change_detected + 4 ≤ s.tick)) :
    animGenPhase g s rng = (s, rng) := by
  unfold animGenPhase
  rw [if_neg h]

lemma animGenPhase_fire (g : Grid) (s : AState) (rng : Rng)
    (h : s.columns = [] ∧ s.last_change_detected + 4 ≤ s.tick) :
    (animGenPhase g s rng).1.columns = (genAll g (animCutoffs g s.original_columns) rng).1 := by
  unfold animGenPhase
  rw [if_pos h]

lemma animTick_columns (g : Grid) (s : AState) (rng : Rng) :
    (animTick g s rng).2.1.columns =
      (stepPhase (animGenPhase g (animResizePhase g { s with tick := s.tick + 1 }) rng).1.columns).1 :=
  rfl

lemma mainInitPhase_fields (g : Grid) (s : MState) :
    (mainInitPhase g s).columns = s.columns ∧
    (mainInitPhase g s).last_change_detected = s.last_change_detected ∧
    (mainInitPhase g s).tick = s.tick ∧
    (mainInitPhase g s).snapshots = s.snapshots := by
  unfold mainInitPhase
  split <;> exact ⟨rfl, rfl, rfl, rfl⟩

lemma mainResizePhase_empty (g : Grid) (s : MState) (h : s.columns = []) :
    mainResizePhase g s = s := by
  unfold mainResizePhase
  rw [if_neg]
  simp [h]

lemma mainDetectPhase_empty (g : Grid) (s : MState) (h : s.columns = []) :
    mainDetectPhase g s = (g, s) := by
  unfold mainDetectPhase
  rw [if_neg]
  simp [h]

lemma mainGenPhase_skip (g : Grid) (s : MState) (rng : Rng)
    (h : ¬(s.columns = [] ∧ s.last_change_detected + 2 ≤ s.tick)) :
    mainGenPhase g s rng = (s, rng) := by
  unfold mainGenPhase
  rw [if_neg h]

lemma mainGenPhase_fire (g : Grid) (s : MState) (rng : Rng)
    (h : s.columns = [] ∧ s.last_change_detected + 2 ≤ s.tick) :
    (mainGenPhase g s rng).1.columns = (genAll g (mainCutoffs g s.snapshots) rng).1 := by
  unfold mainGenPhase
  rw [if_pos h]

lemma mainTick_columns (g : Grid) (s : MState) (rng : Rng) :
    (mainTick g s rng).2.1.columns =
      (stepPhase (mainGenPhase
        (mainDetectPhase g (mainResizePhase g (mainInitPhase g { s with tick := s.tick + 1 }))).1
        (mainDetectPhase g (mainResizePhase g (mainInitPhase g { s with tick := s.tick + 1 }))).2
        rng).1.columns).1 := by
  unfold mainTick
  dsimp only
  split
  · rfl
  · split <;> rfl

/-- Claim C5 (idle/cooldown gating, confirmed): in both evolutions, on a
tick where fewer than the configured cooldown ticks (4 in `animation.rs`, 2
in `main.rs`) have elapsed since `last_change_detected`, no trails appear;
once the cooldown has elapsed (with the trail set empty and a non-empty
grid) the generator runs and trails appear. -/
theorem cooldown_gating (g : Grid) (s : AState) (rng : Rng) (hempty : s.columns = [])
    (g2 : Grid) (s2 : MState) (rng2 : Rng) (hempty2 : s2.columns = []) :
    ((s.tick + 1 < s.last_change_detected + 4 → (animTick g s rng).2.1.columns = []) ∧
      (s.last_change_detected + 4 ≤ s.tick + 1 → 0 < g.width →
        (animTick g s rng).2.1.columns ≠ [])) ∧
    ((s2.tick + 1 < s2.last_change_detected + 2 → (mainTick g2 s2 rng2).2.1.columns = []) ∧
      (s2.last_change_detected + 2 ≤ s2.tick + 1 → 0 < g2.width →
        (mainTick g2 s2 rng2).2.1.columns ≠ [])) := by
  have hr : animResizePhase g { s with tick := s.tick + 1 } = { s with tick := s.tick + 1 } :=
    animResizePhase_empty g _ (by simpa using hempty)
  have hD : mainDetectPhase g2 (mainResizePhase g2 (mainInitPhase g2
        { s2 with tick := s2.tick + 1 })) =
      (g2, { s2 with tick := s2.tick + 1, original_columns := some (screen_shot g2) }) := by
    have hinit : mainInitPhase g2 { s2 with tick := s2.tick + 1 } =
        { s2 with tick := s2.tick + 1, original_columns := some (screen_shot g2) } := by
      unfold mainInitPhase
      rw [if_pos (by simpa using hempty2)]
    rw [hinit, mainResizePhase_empty g2 _ (by simpa using hempty2)]
    exact mainDetectPhase_empty g2 _ (by simpa using hempty2)
  refine ⟨⟨?_, ?_⟩, ⟨?_, ?_⟩⟩
  · intro hlt
    have hskip := animGenPhase_skip g { s with tick := s.tick + 1 } rng (by
      intro hcond
      have h2 : s.last_change_detected + 4 ≤ s.tick + 1 := hcond.2
      omega)
    rw [animTick_columns, hr, hskip]
    show (stepPhase s.columns).1 = []
    rw [hempty]
    rfl
  · intro hle hw
    have hfire := animGenPhase_fire g { s with tick := s.tick + 1 } rng ⟨hempty, hle⟩
    rw [animTick_columns, hr, hfire, stepPhase_fst]
    intro hnil
    have hlen := congrArg List.length hnil
    rw [List.length_map, genAll_length] at hlen
    simp at hlen
    omega
  · intro hlt
    have hskip := mainGenPhase_skip g2
      { s2 with tick := s2.tick + 1, original_columns := some (screen_shot g2) } rng2 (by
        intro hcond
        have h2 : s2.last_change_detected + 2 ≤ s2.tick + 1 := hcond.2
        omega)
    have hcalc : (mainTick g2 s2 rng2).2.1.columns = (stepPhase (mainGenPhase g2
        { s2 with tick := s2.tick + 1, original_columns := some (screen_shot g2) }
        rng2).1.columns).1 := by
      rw [mainTick_columns, hD]
    rw [hcalc, hskip]
    show (stepPhase s2.columns).1 = []
    rw [hempty2]
    rfl
  · intro hle hw
    have hfire := mainGenPhase_fire g2
      { s2 with tick := s2.tick + 1, original_columns := some (screen_shot g2) } rng2
      ⟨hempty2, hle⟩
    have hcalc : (mainTick g2 s2 rng2).2.1.columns = (stepPhase (mainGenPhase g2
        { s2 with tick := s2.tick + 1, original_columns := some (screen_shot g2) }
        rng2).1.columns).1 := by
      rw [mainTick_columns, hD]
    rw [hcalc, hfire, stepPhase_fst]
    intro hnil
    have hlen := congrArg List.length hnil
    rw [List.length_map, genAll_length] at hlen
    simp at hlen
    omega

/-- Witness for C5: one tick after startup nothing is generated in
`animation.rs` (cooldown 4 not yet elapsed); on tick 11 with the last change
at tick 0, `main.rs` generates. -/
theorem cooldown_gating_witness :
    (animTick gA1 ⟨0, 0, [], []⟩ rngZero).2.1.columns = [] ∧
    (mainTick gA1 ⟨10, 0, none, [], []⟩ rngZero).2.1.columns ≠ [] := by
  have h := cooldown_gating gA1 ⟨0, 0, [], []⟩ rngZero rfl gA1 ⟨10, 0, none, [], []⟩ rngZero rfl
  exact ⟨h.1.1 (by decide), h.2.2 (by decide) (by decide)⟩

lemma getD_zero_mem {l : Columns} (h : l ≠ []) : l.getD 0 [] ∈ l := by
  cases l with
  | nil => exact absurd rfl h
  | cons a t => simp

lemma animResizePhase_trailInv (g : Grid) (s : AState)
    (huni : ∀ c1 ∈ s.columns, ∀ c2 ∈ s.columns, realCount c1 = realCount c2) :
    trailInv g (animResizePhase g s).columns := by
  unfold animResizePhase
  split
  · left; rfl
  · rename_i hcond
    by_cases hnil : s.columns = []
    · left; exact hnil
    · right
      rw [not_and_or, not_or] at hcond
      rcases hcond with h | ⟨hlen, hrc⟩
      · exact absurd hnil (by simpa using h)
      · refine ⟨by simpa using hlen, fun c hm => ?_⟩
        rw [huni c hm (s.columns.getD 0 []) (getD_zero_mem hnil)]
        simpa using hrc

lemma animGenPhase_trailInv (g : Grid) (s : AState) (rng : Rng)
    (h : trailInv g s.columns) : trailInv g (animGenPhase g s rng).1.columns := by
  unfold animGenPhase
  split
  · exact genAll_trailInv g _ rng
  · exact h

lemma mainResizePhase_trailInv (g : Grid) (s : MState)
    (huni : ∀ c1 ∈ s.columns, ∀ c2 ∈ s.columns, realCount c1 = realCount c2) :
    trailInv g (mainResizePhase g s).columns := by
  unfold mainResizePhase
  split
  · left; rfl
  · rename_i hcond
    by_cases hnil : s.columns = []
    · left; exact hnil
    · right
      rw [not_and_or, not_or] at hcond
      rcases hcond with h | ⟨hlen, hrc⟩
      · exact absurd hnil (by simpa using h)
      · refine ⟨by simpa using hlen, fun c hm => ?_⟩
        rw [huni c hm (s.columns.getD 0 []) (getD_zero_mem hnil)]
        simpa using hrc

lemma mainDetectPhase_trailInv (g : Grid) (s : MState)
    (h : trailInv g s.columns) : trailInv g (mainDetectPhase g s).2.columns := by
  unfold mainDetectPhase mainReconcile
  split
  · left; rfl
  · exact h

lemma restoreGrid_dims (g : Grid) (orig : Snapshot) (cols : Columns) :
    (restoreGrid g orig cols).width = g.width ∧ (restoreGrid g orig cols).height = g.height :=
  ⟨rfl, rfl⟩

lemma mainDetectPhase_dims (g : Grid) (s : MState) :
    (mainDetectPhase g s).1.width = g.width ∧ (mainDetectPhase g s).1.height = g.height := by
  unfold mainDetectPhase
  split
  · unfold mainReconcile
    cases s.original_columns <;> exact ⟨rfl, rfl⟩
  · exact ⟨rfl, rfl⟩

lemma mainGenPhase_trailInv (gGen gInv : Grid) (s : MState) (rng : Rng)
    (hw : gGen.width = gInv.width) (hh : gGen.height = gInv.height)
    (h : trailInv gInv s.columns) : trailInv gInv (mainGenPhase gGen s rng).1.columns := by
  unfold mainGenPhase
  split
  · right
    constructor
    · rw [genAll_length]
      exact hw
    · intro c hm
      rw [genAll_realCount gGen _ rng c hm]
      exact hh
  · exact h

/-- Claim C3 (trail-set shape invariant, confirmed): after a full tick of
either evolution — starting from any state whose trails have uniform Real
counts, as every reachable state does — the trail set is either completely
empty or has exactly one trail per grid column with each trail's
Real-provenance count equal to the grid's row count. -/
theorem trailset_shape (g : Grid) (s : AState) (rng : Rng) (hh : 0 < g.height)
    (huni : ∀ c1 ∈ s.columns, ∀ c2 ∈ s.columns, realCount c1 = realCount c2)
    (g2 : Grid) (s2 : MState) (rng2 : Rng) (hh2 : 0 < g2.height)
    (huni2 : ∀ c1 ∈ s2.columns, ∀ c2 ∈ s2.columns, realCount c1 = realCount c2) :
    trailInv g (animTick g s rng).2.1.columns ∧
    trailInv g2 (mainTick g2 s2 rng2).2.1.columns := by
  constructor
  · rw [animTick_columns]
    apply stepPhase_trailInv
    apply animGenPhase_trailInv
    exact animResizePhase_trailInv g { s with tick := s.tick + 1 } huni
  · rw [mainTick_columns]
    apply stepPhase_trailInv
    apply mainGenPhase_trailInv _ g2 _ rng2
      (mainDetectPhase_dims g2 _).1 (mainDetectPhase_dims g2 _).2
    apply mainDetectPhase_trailInv
    have hcols : (mainInitPhase g2 { s2 with tick := s2.tick + 1 }).columns = s2.columns :=
      (mainInitPhase_fields g2 _).1
    apply mainResizePhase_trailInv
    rw [hcols]
    exact huni2

/-- Witness for C3: one tick from the startup state in both evolutions. -/
theorem trailset_shape_witness :
    trailInv gA1 (animTick gA1 ⟨0, 0, [], []⟩ rngZero).2.1.columns ∧
    trailInv gA1 (mainTick gA1 ⟨0, 0, none, [], []⟩ rngZero).2.1.columns := by
  have h := trailset_shape gA1 ⟨0, 0, [], []⟩ rngZero (by decide)
    (by intro c1 h1; simp at h1) gA1 ⟨0, 0, none, [], []⟩ rngZero (by decide)
    (by intro c1 h1; simp at h1)
  exact h

lemma synthCount_mapReal (cs : List Cell) :
    synthCount (cs.map (fun c => (c, true))) = 0 := by
  induction cs with
  | nil => rfl
  | cons c t ih => simpa [synthCount, List.filter_cons] using ih

/-- Claim C4 (trail exhaustion round-trip, confirmed): a freshly generated
trail column, stepped exactly its length minus the grid height many times,
reaches a state with zero Synthetic entries whose visible window (its last
`rows` entries) is exactly the column's original Real-only content; and a
single step never alters or removes Real entries of any nonempty column. -/
theorem trail_exhaustion_roundtrip (g : Grid) (ci cutoff : Nat) (rng : Rng)
    (col : List Entry) (hcol : col ≠ []) :
    synthCount (stepIter ((genCol g ci cutoff rng).1.length - g.height)
        (genCol g ci cutoff rng).1) = 0 ∧
    windowOf g.height (stepIter ((genCol g ci cutoff rng).1.length - g.height)
        (genCol g ci cutoff rng).1) =
      (colCells g ci).map (fun c => (c, true)) ∧
    realCells (stepCol col).1 = realCells col := by
  have hI := genCol_interleaved g ci cutoff rng
  have hrc : realCount (genCol g ci cutoff rng).1 = g.height :=
    genCol_realCount g ci cutoff rng
  have hpart := realCount_add_synthCount (genCol g ci cutoff rng).1
  have hsynth : synthCount (genCol g ci cutoff rng).1 =
      (genCol g ci cutoff rng).1.length - g.height := by omega
  have hex := hI.exhaust
  rw [hsynth] at hex
  have hlenc : (colCells g ci).length = g.height := by simp [colCells]
  refine ⟨?_, ?_, realCells_stepCol col⟩
  · rw [hex]
    exact synthCount_mapReal (colCells g ci)
  · rw [hex]
    unfold windowOf
    rw [List.length_map, hlenc, Nat.sub_self, List.drop_zero]

/-- Witness for C4: concrete instantiation (trivial trail for the
Real-preservation conjunct). -/
theorem trail_exhaustion_roundtrip_witness :
    realCells (stepCol [(cA, true)]).1 = realCells [(cA, true)] :=
  (trail_exhaustion_roundtrip gA1 0 0 rngZero [(cA, true)] (by decide)).2.2
